import Mathlib

/-!
Verification development for the internal-link PageRank simulator.

The definitions below are a shallow embedding of the Python sources:
* `app/core/pagerank/advanced_impl.py` (`AdvancedPageRankCalculator`)
* `app/core/pagerank/networkx_impl.py` (sparse-matrix power iteration)
* `app/core/rules/multi_rule.py` (`MultiRule`)
* `app/core/selectors/*.py` (target-selection strategies)

Floating point `float` values are modelled as exact rationals `ℚ`; the
`np.inf` ceilings are modelled as `Option ℚ` with `none` standing for +∞.
Python's `random.sample` is modelled as an explicit sampler parameter
(`Sampler`), so that theorems hold for every outcome of the randomness.
-/

namespace PagerankSim

/-- A page record, with the attribute-or-dict access of the sources
normalized to plain fields (`id`, `url`, `type`, `category`,
`current_pagerank`); `ptype` models the `type` attribute. -/
structure Page where
  id : ℕ
  url : String
  ptype : String
  category : String
  current_pagerank : ℚ
deriving DecidableEq, Repr

/-! ## Water-filling projection (`_water_filling_projection`) -/

/-- One entry of `np.minimum(np.maximum(p, floors), ceilings)`;
a `none` ceiling is `np.inf`, which never caps. -/
def clampEntry (x fl : ℚ) (ce : Option ℚ) : ℚ :=
  match ce with
  | none => max x fl
  | some c => min (max x fl) c

/-- `x < ceiling` where the ceiling may be `np.inf` (`none`). -/
def ltCeil (x : ℚ) : Option ℚ → Prop
  | none => True
  | some c => x < c

instance decLtCeil (x : ℚ) (c : Option ℚ) : Decidable (ltCeil x c) :=
  match c with
  | none => isTrue trivial
  | some cv => inferInstanceAs (Decidable (x < cv))

/-- Value of a finite ceiling (only meaningful when the ceiling `isSome`). -/
def ceilVal : Option ℚ → ℚ
  | none => 0
  | some c => c

/-- `p_capped`: the input clipped to the floor/ceiling box. -/
def wfClamp {n : ℕ} (p fl : Fin n → ℚ) (ce : Fin n → Option ℚ) : Fin n → ℚ :=
  fun i => clampEntry (p i) (fl i) (ce i)

/-- `deficit = 1.0 - current_sum`. -/
def wfDeficit {n : ℕ} (p fl : Fin n → ℚ) (ce : Fin n → Option ℚ) : ℚ :=
  1 - ∑ i, wfClamp p fl ce i

/-- `can_adjust = (p_capped > floors) & (p_capped < ceilings)`. -/
def wfAdjustableSet {n : ℕ} (p fl : Fin n → ℚ) (ce : Fin n → Option ℚ) :
    Finset (Fin n) :=
  Finset.univ.filter fun i =>
    fl i < wfClamp p fl ce i ∧ ltCeil (wfClamp p fl ce i) (ce i)

/-- `available_capacity = np.sum(ceilings[can_adjust] - p_capped[can_adjust])`
(its finite part; the comparison with the deficit separately accounts for
infinite ceilings). -/
def wfCapacityUp {n : ℕ} (pc : Fin n → ℚ) (ce : Fin n → Option ℚ)
    (adj : Finset (Fin n)) : ℚ :=
  ∑ i ∈ adj, (ceilVal (ce i) - pc i)

/-- `available_capacity = np.sum(p_capped[can_adjust] - floors[can_adjust])`. -/
def wfCapacityDown {n : ℕ} (pc fl : Fin n → ℚ) (adj : Finset (Fin n)) : ℚ :=
  ∑ i ∈ adj, (pc i - fl i)

/-- The clamped vector after the deficit has been distributed over the
adjustable entries (`p_capped[can_adjust] += adjustment`).  When the
deficit is positive and the total capacity (finite, i.e. every adjustable
ceiling `isSome`) is below the deficit, the distribution is proportional
to remaining capacity, otherwise it is even; symmetrically for a negative
deficit with `p_capped - floors` as capacity. -/
def wfAdjusted {n : ℕ} (pc fl : Fin n → ℚ) (ce : Fin n → Option ℚ)
    (adj : Finset (Fin n)) (deficit : ℚ) : Fin n → ℚ :=
  if 0 < deficit then
    if (∀ i ∈ adj, (ce i).isSome) ∧ wfCapacityUp pc ce adj < deficit then
      fun i => if i ∈ adj then
        pc i + (ceilVal (ce i) - pc i) * (deficit / wfCapacityUp pc ce adj)
      else pc i
    else
      fun i => if i ∈ adj then pc i + deficit / (adj.card : ℚ) else pc i
  else
    if wfCapacityDown pc fl adj < -deficit then
      fun i => if i ∈ adj then
        pc i - (pc i - fl i) * (-deficit / wfCapacityDown pc fl adj)
      else pc i
    else
      fun i => if i ∈ adj then pc i + deficit / (adj.card : ℚ) else pc i

/-- Modelled from the spec sentence settled by claim C3 — the *claimed*
allocation, to be compared with the code's `wfAdjusted`: "distribute across
adjustable entries proportional to each entry's remaining capacity
(ceiling − value), or evenly if total capacity < Δ". -/
def wfAdjustedClaimed {n : ℕ} (pc : Fin n → ℚ) (ce : Fin n → Option ℚ)
    (adj : Finset (Fin n)) (deficit : ℚ) : Fin n → ℚ :=
  if 0 < deficit then
    if (∀ i ∈ adj, (ce i).isSome) ∧ wfCapacityUp pc ce adj < deficit then
      fun i => if i ∈ adj then pc i + deficit / (adj.card : ℚ) else pc i
    else
      fun i => if i ∈ adj then
        pc i + (ceilVal (ce i) - pc i) * (deficit / wfCapacityUp pc ce adj)
      else pc i
  else pc

/-- `p_final = np.clip(p_capped, floors, ceilings)` after the adjustment. -/
def wfFinal {n : ℕ} (p fl : Fin n → ℚ) (ce : Fin n → Option ℚ) : Fin n → ℚ :=
  fun i =>
    clampEntry
      (wfAdjusted (wfClamp p fl ce) fl ce (wfAdjustableSet p fl ce)
        (wfDeficit p fl ce) i)
      (fl i) (ce i)

/-- `_water_filling_projection(p, floors, ceilings)`. -/
def waterFilling {n : ℕ} (p fl : Fin n → ℚ) (ce : Fin n → Option ℚ) :
    Fin n → ℚ :=
  if |wfDeficit p fl ce| < 1 / 10 ^ 10 then
    wfClamp p fl ce
  else if (wfAdjustableSet p fl ce).card = 0 then
    fun i => wfClamp p fl ce i / ∑ j, wfClamp p fl ce j
  else
    fun i => wfFinal p fl ce i / ∑ j, wfFinal p fl ce j

/-! ## Transition matrix (`_build_transition_matrix` and the sparse path) -/

/-- Last value stored under a key in an association list (Python dict
assignments overwrite, so the last write wins). -/
def lookupLast {α : Type} [DecidableEq α] (l : List (α × ℚ)) (k : α) : Option ℚ :=
  l.foldl (fun acc kv => if kv.1 = k then some kv.2 else acc) none

/-- `dict.get(k, d)`. -/
def lookupLastD {α : Type} [DecidableEq α] (l : List (α × ℚ)) (k : α) (d : ℚ) : ℚ :=
  (lookupLast l k).getD d

/-- Keys of an association list in first-occurrence order (dict key order). -/
def dedupKeys (l : List (ℕ × ℚ)) : List ℕ :=
  l.foldl (fun acc kv => if kv.1 ∈ acc then acc else acc ++ [kv.1]) []

/-- `id_to_idx = {page_id: idx for idx, page_id in enumerate(page_ids)}`;
a duplicated id keeps its last index, as in a dict comprehension. -/
def lastIdxOf : List ℕ → ℕ → Option ℕ
  | [], _ => none
  | a :: as, x =>
    match lastIdxOf as x with
    | some j => some (j + 1)
    | none => if a = x then some 0 else none

/-- `link_weights.get((from_id, to_id), 1.0) if link_weights else 1.0`. -/
def linkWeight (lw : List ((ℕ × ℕ) × ℚ)) (e : ℕ × ℕ) : ℚ := lookupLastD lw e 1

/-- Weighted adjacency matrix built from the link list (scipy's `csr_matrix`
sums duplicate entries; links with an endpoint that maps to no page index
are skipped). -/
def buildA {n : ℕ} (idxOf : ℕ → Option ℕ) (links : List (ℕ × ℕ))
    (lw : List ((ℕ × ℕ) × ℚ)) : Fin n → Fin n → ℚ :=
  fun i j =>
    (links.map fun e =>
      if idxOf e.1 = some i.val ∧ idxOf e.2 = some j.val then linkWeight lw e
      else 0).sum

/-- Outflow capping: scale a capped page's outgoing row by `cap_factor` and
add the remainder `1 - cap_factor` as a self-loop, only when the row has
positive total weight. -/
def applyCaps {n : ℕ} (idxOf : ℕ → Option ℕ) (capKeys : List ℕ) (capVal : ℕ → ℚ)
    (A : Fin n → Fin n → ℚ) : Fin n → Fin n → ℚ :=
  capKeys.foldl (fun B pid =>
    match idxOf pid with
    | none => B
    | some k =>
      if h : k < n then
        if 0 < ∑ j, B ⟨k, h⟩ j then
          fun r c =>
            if r = ⟨k, h⟩ then
              capVal pid * B ⟨k, h⟩ c + (if c = ⟨k, h⟩ then 1 - capVal pid else 0)
            else B r c
        else B
      else B) A

/-- A row's total outgoing weight (`out_degrees`). -/
def rowSum {n : ℕ} (A : Fin n → Fin n → ℚ) (i : Fin n) : ℚ := ∑ j, A i j

/-- `out_degrees[out_degrees == 0] = 1; D_inv = diags(1/out_degrees);
M = A.T @ D_inv`. -/
def transitionM {n : ℕ} (A : Fin n → Fin n → ℚ) : Fin n → Fin n → ℚ :=
  fun i j => A j i / (if rowSum A j = 0 then 1 else rowSum A j)

/-- Matrix part of `_build_transition_matrix`, over the page-id list
(`page_ids`) of the `n` pages. -/
def buildCore (n : ℕ) (ids : List ℕ) (links : List (ℕ × ℕ))
    (lw : List ((ℕ × ℕ) × ℚ)) (capPairs : List (ℕ × ℚ)) (capsFlag : Bool) :
    Fin n → Fin n → ℚ :=
  let idxOf := lastIdxOf ids
  let A0 : Fin n → Fin n → ℚ := buildA idxOf links lw
  let A := if capsFlag then
      (if capPairs ≠ [] then
        applyCaps idxOf (dedupKeys capPairs) (fun k => lookupLastD capPairs k 0) A0
      else A0)
    else A0
  transitionM A

/-- `_build_transition_matrix(page_data, links, link_weights, apply_caps)`. -/
def buildTransitionMatrix (pages : List Page) (links : List (ℕ × ℕ))
    (lw : List ((ℕ × ℕ) × ℚ)) (capPairs : List (ℕ × ℚ)) (capsFlag : Bool) :
    Fin pages.length → Fin pages.length → ℚ :=
  buildCore pages.length (pages.map Page.id) links lw capPairs capsFlag

/-! ## `NetworkXPageRankCalculator._calculate_with_sparse_matrix` -/

/-- The `norm` that `_calculate_with_sparse_matrix` calls in its
convergence check is `scipy.sparse.linalg.norm` (imported at the top of
the function), and the difference `v - v_old` it is applied to is a dense
ndarray (`v = np.ones(n)/n`, and `M.dot(v)` is dense): that function
raises `TypeError("input is not sparse. use numpy.linalg.norm")` on every
non-sparse input, so the call never yields a number. -/
def sparseNorm {n : ℕ} (_v : Fin n → ℚ) : Except String ℚ :=
  .error "TypeError: input is not sparse. use numpy.linalg.norm"

/-- The sparse power-iteration loop: `v = damping * M @ v + (1-damping)/n`,
with the convergence test run every 10 iterations and the first argument
the remaining fuel (`max_iter` minus the current iteration index).  The
convergence test calls `sparseNorm` on the dense difference vector, so
reaching it aborts the run; the comparison with the tolerance is dead
code kept for faithfulness to the source's control flow. -/
def powerIterLoop {n : ℕ} (M : Fin n → Fin n → ℚ) (d tol : ℚ) :
    ℕ → ℕ → (Fin n → ℚ) → Except String (Fin n → ℚ)
  | 0, _, v => .ok v
  | fuel + 1, it, v =>
    let vNew := fun i => d * (∑ j, M i j * v j) + (1 - d) / (n : ℚ)
    if it % 10 = 0 then
      match sparseNorm (fun i => vNew i - v i) with
      | .error e => .error e
      | .ok diff =>
        if diff < tol then .ok vNew
        else powerIterLoop M d tol fuel (it + 1) vNew
    else powerIterLoop M d tol fuel (it + 1) vNew

/-- Numeric part of `_calculate_with_sparse_matrix` over the page-id list:
build the adjacency, normalize, run the power iteration from the uniform
vector, and pair scores with `page_ids[i]`; an uncaught exception from the
loop propagates. -/
def sparseCore (n : ℕ) (ids : List ℕ) (links : List (ℕ × ℕ)) (d : ℚ)
    (maxIter : ℕ) (tol : ℚ) (lw : List ((ℕ × ℕ) × ℚ)) :
    Except String (List (ℕ × ℚ)) :=
  let idxOf := lastIdxOf ids
  let A : Fin n → Fin n → ℚ := buildA idxOf links lw
  let M := transitionM A
  match powerIterLoop M d tol maxIter 0 (fun _ => 1 / (n : ℚ)) with
  | .error e => .error e
  | .ok vF => .ok (List.ofFn fun i => (ids.getD i.val 0, vF i))

/-- The sparse-matrix baseline PageRank of `networkx_impl.py` (used for
datasets above the size threshold). -/
def sparsePagerank (pages : List Page) (links : List (ℕ × ℕ)) (d : ℚ)
    (maxIter : ℕ) (tol : ℚ) (lw : List ((ℕ × ℕ) × ℚ)) :
    Except String (List (ℕ × ℚ)) :=
  sparseCore pages.length (pages.map Page.id) links d maxIter tol lw

/-! ## `AdvancedPageRankCalculator` -/

/-- The working data of `_prepare_page_data`: the id-resolved protected,
boosted and outflow-cap entries (map entries whose URL matches no page
are dropped). -/
structure PageData where
  pages : List Page
  protectedPairs : List (ℕ × ℚ)
  boostedPairs : List (ℕ × ℚ)
  capPairs : List (ℕ × ℚ)
deriving Repr

/-- `url_to_id[page_url] = page_id` built over all pages (last write wins). -/
def urlToId (pages : List Page) (u : String) : Option ℕ :=
  pages.foldl (fun acc pg => if pg.url = u then some pg.id else acc) none

/-- Resolve `{url: factor}` entries to `(page_id, factor)` pairs, keeping
only URLs present in `url_to_id` (`if url in page_data['url_to_id']`). -/
def resolvePairs (pages : List Page) (m : List (String × ℚ)) : List (ℕ × ℚ) :=
  m.foldl (fun acc uv =>
    match urlToId pages uv.1 with
    | some pid => acc ++ [(pid, uv.2)]
    | none => acc) []

/-- `_prepare_page_data(pages, protected_pages, boosted_pages, alpha_cap)`. -/
def preparePageData (pages : List Page) (prot boost caps : List (String × ℚ)) :
    PageData where
  pages := pages
  protectedPairs := resolvePairs pages prot
  boostedPairs := resolvePairs pages boost
  capPairs := resolvePairs pages caps

/-- Per-node needs of the protected (or boosted) pages:
`need = floor_value - p_current` for ids below their floor (or target),
collected in iteration order. -/
def collectNeeds {n : ℕ} (keys : List ℕ) (valOf : ℕ → ℚ) (idxOf : ℕ → Option ℕ)
    (p base : Fin n → ℚ) : List (Fin n × ℚ) :=
  keys.foldl (fun acc pid =>
    match idxOf pid with
    | none => acc
    | some k =>
      if h : k < n then
        if p ⟨k, h⟩ < valOf pid * base ⟨k, h⟩ then
          acc ++ [(⟨k, h⟩, valOf pid * base ⟨k, h⟩ - p ⟨k, h⟩)]
        else acc
      else acc) []

/-- Distribute a budget over the needs proportionally
(`allocation = min(need * budget_per_unit, eta - budget_used)`), returning
the pocket vector and the budget actually used. -/
def allocateBudget {n : ℕ} (needs : List (Fin n × ℚ)) (eta : ℚ) :
    (Fin n → ℚ) × ℚ :=
  if needs = [] ∨ ¬ 0 < eta then (fun _ => 0, 0)
  else
    let total := (needs.map Prod.snd).sum
    let bpu := if 0 < total then eta / total else 0
    needs.foldl
      (fun s iv =>
        (fun j => if j = iv.1 then min (iv.2 * bpu) (eta - s.2) else s.1 j,
         s.2 + min (iv.2 * bpu) (eta - s.2)))
      (fun _ => 0, 0)

/-- `_compute_teleportation_vector`: uniform base weighted by the unused
budgets plus the protection and boost pockets, renormalized. -/
def computeTeleportationVector {n : ℕ} (pd : PageData) (idxOf : ℕ → Option ℕ)
    (p base : Fin n → ℚ) (etaP etaB : ℚ) : (Fin n → ℚ) × ℚ × ℚ :=
  let pNeeds := collectNeeds (dedupKeys pd.protectedPairs)
    (fun k => lookupLastD pd.protectedPairs k 0) idxOf p base
  let vpU := allocateBudget pNeeds etaP
  let bNeeds := collectNeeds (dedupKeys pd.boostedPairs)
    (fun k => lookupLastD pd.boostedPairs k 0) idxOf p base
  let vbU := allocateBudget bNeeds etaB
  let baseW := 1 - etaP - etaB + (etaP - vpU.2) + (etaB - vbU.2)
  let vRaw := fun i => baseW * (1 / (n : ℚ)) + vpU.1 i + vbU.1 i
  (fun i => vRaw i / ∑ j, vRaw j, vpU.2, vbU.2)

/-- `floors[idx] = floor_factor * baseline_vec[idx]` for protected ids
(0 elsewhere). -/
def setupFloors {n : ℕ} (pd : PageData) (idxOf : ℕ → Option ℕ)
    (base : Fin n → ℚ) : Fin n → ℚ :=
  (dedupKeys pd.protectedPairs).foldl (fun fl pid =>
    match idxOf pid with
    | none => fl
    | some k =>
      if h : k < n then
        fun i => if i = ⟨k, h⟩ then
          lookupLastD pd.protectedPairs pid 0 * base ⟨k, h⟩
        else fl i
      else fl) (fun _ => 0)

/-- `ceilings[idx] = 2.0 * target_factor * baseline_vec[idx]` for boosted
ids (`np.inf`, i.e. `none`, elsewhere). -/
def setupCeilings {n : ℕ} (pd : PageData) (idxOf : ℕ → Option ℕ)
    (base : Fin n → ℚ) : Fin n → Option ℚ :=
  (dedupKeys pd.boostedPairs).foldl (fun ce pid =>
    match idxOf pid with
    | none => ce
    | some k =>
      if h : k < n then
        fun i => if i = ⟨k, h⟩ then
          some (2 * lookupLastD pd.boostedPairs pid 0 * base ⟨k, h⟩)
        else ce i
      else ce) (fun _ => none)

/-- Main loop of `_calculate_fast`: teleportation step, damped update,
water-filling projection, convergence check every 10 iterations. -/
def fastLoop {n : ℕ} (pd : PageData) (idxOf : ℕ → Option ℕ)
    (M : Fin n → Fin n → ℚ) (base fl : Fin n → ℚ) (ce : Fin n → Option ℚ)
    (d etaP etaB tol : ℚ) : ℕ → ℕ → (Fin n → ℚ) → Fin n → ℚ
  | 0, _, p => p
  | fuel + 1, it, p =>
    let v := (computeTeleportationVector pd idxOf p base etaP etaB).1
    let pNew := fun i => d * (∑ j, M i j * p j) + (1 - d) * v i
    let pProj := waterFilling pNew fl ce
    if it % 10 = 0 ∧ (∑ i, |pProj i - p i|) < tol then pProj
    else fastLoop pd idxOf M base fl ce d etaP etaB tol fuel (it + 1) pProj

/-- `_calculate_fast(page_data, links, baseline_pr, damping, eta_protect,
eta_boost, tolerance, max_iter)` (note: the fast path builds its transition
matrix without link weights and with outflow caps applied). -/
def calculateFast (pd : PageData) (links : List (ℕ × ℕ))
    (baselinePr : List (ℕ × ℚ)) (d etaP etaB tol : ℚ) (maxIter : ℕ) :
    List (ℕ × ℚ) :=
  let n := pd.pages.length
  let idxOf := lastIdxOf (pd.pages.map Page.id)
  let M := buildTransitionMatrix pd.pages links [] pd.capPairs true
  let p0 : Fin n → ℚ := fun i => lookupLastD baselinePr (pd.pages.get i).id (1 / (n : ℚ))
  let fl := setupFloors pd idxOf p0
  let ce := setupCeilings pd idxOf p0
  let pF := fastLoop pd idxOf M p0 fl ce d etaP etaB tol maxIter 0 p0
  List.ofFn fun i => ((pd.pages.get i).id, pF i)

/-- `_calculate_exact`: "TODO: Implement exact algorithm. For now, delegate
to fast mode". -/
def calculateExact (pd : PageData) (links : List (ℕ × ℕ))
    (baselinePr : List (ℕ × ℚ)) (d etaP etaB tol : ℚ) (maxIter : ℕ) :
    List (ℕ × ℚ) :=
  calculateFast pd links baselinePr d etaP etaB tol maxIter

/-- `_estimate_computation_time(n_pages, n_links)` (uses the constructor's
`max_iter`). -/
def estimateComputationTime (nPages nLinks selfMaxIter : ℕ) : ℚ :=
  1 / 10 + ((nPages : ℚ) / 100000 + (nLinks : ℚ) / 1000000) * ((min 100 selfMaxIter : ℕ) : ℚ)

/-- `AdvancedPageRankCalculator.calculate`, with the baseline computation
(`_calculate_baseline_pagerank`, which delegates to the external NetworkX
library for datasets below the size threshold) abstracted as the
`baselineCalc` collaborator, and the `param or self.param` resolution of
damping/tolerance/max_iter done by the caller; `selfMaxIter` is the
constructor's `max_iter` used by the time estimate, `perfThreshold` the
constructor's threshold in seconds. -/
def advancedCalculate
    (baselineCalc : List Page → List (ℕ × ℕ) → ℚ → ℚ → List ((ℕ × ℕ) × ℚ) → List (ℕ × ℚ))
    (pages : List Page) (links : List (ℕ × ℕ)) (lw : List ((ℕ × ℕ) × ℚ))
    (protectedPages boostedPages alphaCap : List (String × ℚ))
    (etaProtect etaBoost d tol : ℚ) (maxIter selfMaxIter : ℕ)
    (perfThreshold : ℚ) : List (ℕ × ℚ) :=
  let overflow := 1 < etaProtect + etaBoost
  let etaP := if overflow then min etaProtect (2/5) else etaProtect
  let etaB := if overflow then min etaBoost (3/5 - etaP) else etaBoost
  let pd := preparePageData pages protectedPages boostedPages alphaCap
  let baselinePr := baselineCalc pages links d tol lw
  if perfThreshold < estimateComputationTime pages.length links.length selfMaxIter then
    calculateFast pd links baselinePr d etaP etaB tol maxIter
  else
    calculateExact pd links baselinePr d etaP etaB tol maxIter

/-- A concrete two-page graph (one link `1 → 2`, so page 2 is dangling)
used to evaluate the solver paths. -/
def twoPages : List Page :=
  [{ id := 1, url := "https://site/a", ptype := "product",
     category := "c", current_pagerank := 0 },
   { id := 2, url := "https://site/b", ptype := "product",
     category := "c", current_pagerank := 0 }]

/-- The transition matrix the solver builds over `twoPages` with the single
link `1 → 2` (no weights, no caps). -/
def twoPagesM : Fin 2 → Fin 2 → ℚ :=
  buildTransitionMatrix twoPages [(1, 2)] [] [] true

/-! ## Selection strategies (`app/core/selectors`) -/

/-- A stand-in for `random.sample(population, k)`: any function returning
`k` of the population's elements.  Theorems take the laws they need on the
sampler as hypotheses, so they hold for every randomness outcome. -/
abbrev Sampler := List Page → ℕ → List Page

/-- `CategorySelector.select_targets`. -/
def categorySelect (sample : Sampler) (src : Page) (cands : List Page)
    (m : ℕ) : List Page :=
  let same := cands.filter fun pg => pg.category = src.category
  if same.length ≤ m then same else sample same m

/-- `int(max_targets * 0.7)` in exact arithmetic: `⌊7·m/10⌋`. -/
def sameCatQuota (m : ℕ) : ℕ := 7 * m / 10

/-- `SemanticSelector.select_targets` (the placeholder 70/30 category mix). -/
def semanticSelect (sample : Sampler) (src : Page) (cands : List Page)
    (m : ℕ) : List Page :=
  let same := cands.filter fun pg => pg.category = src.category
  let other := cands.filter fun pg => ¬ pg.category = src.category
  let sameCnt := min same.length (sameCatQuota m)
  let otherCnt := min other.length (m - sameCnt)
  (if 0 < sameCnt then sample same sameCnt else []) ++
    (if 0 < otherCnt then sample other otherCnt else [])

/-- `RandomSelector.select_targets` (the source page is ignored). -/
def randomSelect (sample : Sampler) (_src : Page) (cands : List Page)
    (m : ℕ) : List Page :=
  if cands.length ≤ m then cands else sample cands m

/-- `PageRankSelector.select_targets`: stable sort by `current_pagerank`
(descending when `prefer_high_pagerank`), then take the first `m`;
the source page is ignored. -/
def pagerankSelect (preferHigh : Bool) (_src : Page) (cands : List Page)
    (m : ℕ) : List Page :=
  if preferHigh then
    (List.insertionSort (fun a b => b.current_pagerank ≤ a.current_pagerank) cands).take m
  else
    (List.insertionSort (fun a b => a.current_pagerank ≤ b.current_pagerank) cands).take m

/-- `self.selectors.get(selection_method, self.selectors['category'])`. -/
def runSelector (sample : Sampler) (method : String) :
    Page → List Page → ℕ → List Page :=
  if method = "category" then categorySelect sample
  else if method = "semantic" then semanticSelect sample
  else if method = "random" then randomSelect sample
  else if method = "pagerank_high" then pagerankSelect true
  else if method = "pagerank_low" then pagerankSelect false
  else categorySelect sample

/-! ## `MultiRule` (`app/core/rules/multi_rule.py`) -/

/-- One entry of `rules_config`, with the `.get` defaults of
`_apply_single_rule` as field defaults. -/
structure MRuleConfig where
  source_types : List String := []
  source_categories : List String := []
  target_types : List String := []
  target_categories : List String := []
  selection_method : String := "category"
  links_per_page : ℕ := 3
  bidirectional : Bool := false
  avoid_self_links : Bool := true
deriving DecidableEq, Repr

/-- `_filter_pages_by_criteria` (case-insensitive; an empty filter list
means no restriction). -/
def filterPagesByCriteria (pages : List Page) (typesFilter catsFilter : List String) :
    List Page :=
  let f1 := if typesFilter = [] then pages
    else pages.filter fun pg => pg.ptype.toLower ∈ typesFilter.map String.toLower
  if catsFilter = [] then f1
  else f1.filter fun pg => pg.category.toLower ∈ catsFilter.map String.toLower

/-- The inner loop of `_apply_single_rule`: append `(source, target)` (and
the reverse link when bidirectional) for each selected target not already
present. -/
def emitLinksFor (es : Finset (ℕ × ℕ)) (bid : Bool) (srcId : ℕ)
    (chosen : List Page) (acc : List (ℕ × ℕ)) : List (ℕ × ℕ) :=
  chosen.foldl (fun acc2 tgt =>
    if (srcId, tgt.id) ∈ es then acc2
    else
      acc2 ++ [(srcId, tgt.id)] ++
        (if bid then
          (if (tgt.id, srcId) ∈ es then [] else [(tgt.id, srcId)])
        else [])) acc

/-- `_apply_single_rule(pages, existing_links_set, rule_config)`.  The
already-present set is only read here; duplicates within one rule's output
are filtered later by `generate_links`. -/
def applySingleRule (sample : Sampler) (pages : List Page)
    (es : Finset (ℕ × ℕ)) (cfg : MRuleConfig) : List (ℕ × ℕ) :=
  let sources := filterPagesByCriteria pages cfg.source_types cfg.source_categories
  let targets := filterPagesByCriteria pages cfg.target_types cfg.target_categories
  sources.foldl (fun acc src =>
    let avail := if cfg.avoid_self_links then
        targets.filter fun pg => ¬ pg.id = src.id
      else targets
    emitLinksFor es cfg.bidirectional src.id
      (runSelector sample cfg.selection_method src avail cfg.links_per_page) acc) []

/-- The accumulation step of `generate_links`: append each rule link that is
not yet present, extending the already-present set. -/
def dedupAppend (st : List (ℕ × ℕ) × Finset (ℕ × ℕ)) (ruleLinks : List (ℕ × ℕ)) :
    List (ℕ × ℕ) × Finset (ℕ × ℕ) :=
  ruleLinks.foldl
    (fun st2 l => if l ∈ st2.2 then st2 else (st2.1 ++ [l], insert l st2.2)) st

/-- `MultiRule.generate_links(pages, existing_links)`. -/
def generateLinks (sample : Sampler) (pages : List Page)
    (existingLinks : List (ℕ × ℕ)) (cfgs : List MRuleConfig) : List (ℕ × ℕ) :=
  (cfgs.foldl
    (fun st cfg => dedupAppend st (applySingleRule sample pages st.2 cfg))
    ([], existingLinks.toFinset)).1

/-- Ten pages, five in category "a" and five in category "b", plus a source
page in category "a"; used to evaluate the selection strategies. -/
def mixPages : List Page :=
  [{ id := 1, url := "u1", ptype := "product", category := "a", current_pagerank := 0 },
   { id := 2, url := "u2", ptype := "product", category := "a", current_pagerank := 0 },
   { id := 3, url := "u3", ptype := "product", category := "a", current_pagerank := 0 },
   { id := 4, url := "u4", ptype := "product", category := "a", current_pagerank := 0 },
   { id := 5, url := "u5", ptype := "product", category := "a", current_pagerank := 0 },
   { id := 6, url := "u6", ptype := "product", category := "b", current_pagerank := 0 },
   { id := 7, url := "u7", ptype := "product", category := "b", current_pagerank := 0 },
   { id := 8, url := "u8", ptype := "product", category := "b", current_pagerank := 0 },
   { id := 9, url := "u9", ptype := "product", category := "b", current_pagerank := 0 },
   { id := 10, url := "u10", ptype := "product", category := "b", current_pagerank := 0 }]

/-- A source page in category "a" (not itself a candidate). -/
def srcPage : Page :=
  { id := 0, url := "u0", ptype := "product", category := "a", current_pagerank := 0 }

/-- `random.sample` replaced by "take the first k" — one concrete outcome
of the sampling, used to instantiate the sampler-parametrized theorems. -/
def takeSample : Sampler := fun xs k => xs.take k

/-! ## Properties of the water-filling projection -/

lemma le_clampEntry_some {fl c : ℚ} (x : ℚ) (h : fl ≤ c) :
    fl ≤ clampEntry x fl (some c) :=
  le_min (le_max_right _ _) h

lemma clampEntry_le_some (x fl c : ℚ) : clampEntry x fl (some c) ≤ c :=
  min_le_right _ _

lemma clampEntry_mono {x y : ℚ} (fl : ℚ) (ce : Option ℚ) (h : x ≤ y) :
    clampEntry x fl ce ≤ clampEntry y fl ce := by
  cases ce with
  | none => exact max_le_max h le_rfl
  | some c => exact min_le_min (max_le_max h le_rfl) le_rfl

lemma clampEntry_eq_self {z fl c : ℚ} (h1 : fl ≤ z) (h2 : z ≤ c) :
    clampEntry z fl (some c) = z := by
  simp [clampEntry, max_eq_left h1, min_eq_left h2]

lemma self_le_clampEntry {z c : ℚ} (fl : ℚ) (h : z ≤ c) :
    z ≤ clampEntry z fl (some c) :=
  le_min (le_max_left _ _) h

lemma clampEntry_eq_floor {z fl c : ℚ} (h1 : z ≤ fl) (h2 : fl ≤ c) :
    clampEntry z fl (some c) = fl := by
  simp [clampEntry, max_eq_right h1, min_eq_left h2]

lemma wfClamp_some_bounds {n : ℕ} (p fl cv : Fin n → ℚ)
    (hfc : ∀ i, fl i ≤ cv i) (i : Fin n) :
    fl i ≤ wfClamp p fl (fun j => some (cv j)) i ∧
      wfClamp p fl (fun j => some (cv j)) i ≤ cv i :=
  ⟨le_clampEntry_some _ (hfc i), clampEntry_le_some _ _ _⟩

lemma wfAdjustable_some_iff {n : ℕ} (p fl cv : Fin n → ℚ) (i : Fin n) :
    i ∈ wfAdjustableSet p fl (fun j => some (cv j)) ↔
      fl i < wfClamp p fl (fun j => some (cv j)) i ∧
        wfClamp p fl (fun j => some (cv j)) i < cv i := by
  simp [wfAdjustableSet, ltCeil]

lemma wfCapacityUp_some_pos {n : ℕ} (p fl cv : Fin n → ℚ)
    (hne : (wfAdjustableSet p fl (fun j => some (cv j))).Nonempty) :
    0 < wfCapacityUp (wfClamp p fl (fun j => some (cv j)))
        (fun j => some (cv j)) (wfAdjustableSet p fl (fun j => some (cv j))) := by
  refine Finset.sum_pos (fun i hi => ?_) hne
  have h := (wfAdjustable_some_iff p fl cv i).mp hi
  simpa [ceilVal] using sub_pos.mpr h.2

lemma wfCapacityDown_some_pos {n : ℕ} (p fl cv : Fin n → ℚ)
    (hne : (wfAdjustableSet p fl (fun j => some (cv j))).Nonempty) :
    0 < wfCapacityDown (wfClamp p fl (fun j => some (cv j))) fl
        (wfAdjustableSet p fl (fun j => some (cv j))) := by
  refine Finset.sum_pos (fun i hi => ?_) hne
  have h := (wfAdjustable_some_iff p fl cv i).mp hi
  simpa using sub_pos.mpr h.1

/-- Positivity of the sum that the water-filling projection finally divides
by, in the non-degenerate branch with finite ceilings, nonnegative floors
below the ceilings, and a positive clamped sum. -/
lemma wfFinal_some_sum_pos {n : ℕ} (p fl cv : Fin n → ℚ)
    (hf0 : ∀ i, 0 ≤ fl i) (hfc : ∀ i, fl i ≤ cv i)
    (hS : 0 < ∑ i, wfClamp p fl (fun j => some (cv j)) i)
    (hcard : (wfAdjustableSet p fl (fun j => some (cv j))).card ≠ 0) :
    0 < ∑ i, wfFinal p fl (fun j => some (cv j)) i := by
  have hne : (wfAdjustableSet p fl (fun j => some (cv j))).Nonempty :=
    Finset.card_pos.mp (Nat.pos_of_ne_zero hcard)
  have hbounds := wfClamp_some_bounds p fl cv hfc
  have hfinal : ∀ i, wfFinal p fl (fun j => some (cv j)) i =
      clampEntry
        (wfAdjusted (wfClamp p fl (fun j => some (cv j))) fl
          (fun j => some (cv j)) (wfAdjustableSet p fl (fun j => some (cv j)))
          (wfDeficit p fl (fun j => some (cv j))) i)
        (fl i) (some (cv i)) := fun i => rfl
  by_cases hd : 0 < wfDeficit p fl (fun j => some (cv j))
  · -- mass is added: every entry can only move up, so the sum stays ≥ the
    -- clamped sum
    have hkey : ∀ i, wfClamp p fl (fun j => some (cv j)) i ≤
        wfAdjusted (wfClamp p fl (fun j => some (cv j))) fl
          (fun j => some (cv j)) (wfAdjustableSet p fl (fun j => some (cv j)))
          (wfDeficit p fl (fun j => some (cv j))) i := by
      intro i
      unfold wfAdjusted
      rw [if_pos hd]
      split_ifs with hcap
      · by_cases hi : i ∈ wfAdjustableSet p fl (fun j => some (cv j))
        · simp only [hi, if_pos]
          have h2 := ((wfAdjustable_some_iff p fl cv i).mp hi).2
          have hpos := wfCapacityUp_some_pos p fl cv hne
          have hmul : 0 ≤ (ceilVal (some (cv i)) - wfClamp p fl (fun j => some (cv j)) i) *
              (wfDeficit p fl (fun j => some (cv j)) /
                wfCapacityUp (wfClamp p fl (fun j => some (cv j)))
                  (fun j => some (cv j)) (wfAdjustableSet p fl (fun j => some (cv j)))) := by
            have h2' : (0:ℚ) ≤ ceilVal (some (cv i)) - wfClamp p fl (fun j => some (cv j)) i := by
              simpa [ceilVal] using le_of_lt (sub_pos.mpr h2)
            exact mul_nonneg h2' (le_of_lt (div_pos hd hpos))
          linarith
        · simp [hi]
      · by_cases hi : i ∈ wfAdjustableSet p fl (fun j => some (cv j))
        · simp only [hi, if_pos]
          have hc0 : (0:ℚ) < ((wfAdjustableSet p fl (fun j => some (cv j))).card : ℚ) := by
            exact_mod_cast Finset.card_pos.mpr hne
          have := le_of_lt (div_pos hd hc0)
          linarith
        · simp [hi]
    have hmono : ∀ i, wfClamp p fl (fun j => some (cv j)) i ≤
        wfFinal p fl (fun j => some (cv j)) i := by
      intro i
      rw [hfinal i]
      calc wfClamp p fl (fun j => some (cv j)) i
          = clampEntry (wfClamp p fl (fun j => some (cv j)) i) (fl i) (some (cv i)) :=
            (clampEntry_eq_self (hbounds i).1 (hbounds i).2).symm
        _ ≤ _ := clampEntry_mono _ _ (hkey i)
    exact lt_of_lt_of_le hS (Finset.sum_le_sum fun i _ => hmono i)
  · by_cases hrem : wfCapacityDown (wfClamp p fl (fun j => some (cv j))) fl
        (wfAdjustableSet p fl (fun j => some (cv j)))
        < -wfDeficit p fl (fun j => some (cv j))
    · -- proportional removal: adjustable entries land on their floors
      have hcap2 := wfCapacityDown_some_pos p fl cv hne
      have hk : 1 < -wfDeficit p fl (fun j => some (cv j)) /
          wfCapacityDown (wfClamp p fl (fun j => some (cv j))) fl
            (wfAdjustableSet p fl (fun j => some (cv j))) :=
        (one_lt_div hcap2).mpr hrem
      have hW : ∀ i, wfAdjusted (wfClamp p fl (fun j => some (cv j))) fl
          (fun j => some (cv j)) (wfAdjustableSet p fl (fun j => some (cv j)))
          (wfDeficit p fl (fun j => some (cv j))) i =
          if i ∈ wfAdjustableSet p fl (fun j => some (cv j)) then
            wfClamp p fl (fun j => some (cv j)) i -
              (wfClamp p fl (fun j => some (cv j)) i - fl i) *
                (-wfDeficit p fl (fun j => some (cv j)) /
                  wfCapacityDown (wfClamp p fl (fun j => some (cv j))) fl
                    (wfAdjustableSet p fl (fun j => some (cv j))))
          else wfClamp p fl (fun j => some (cv j)) i := by
        intro i
        unfold wfAdjusted
        rw [if_neg hd, if_pos hrem]
      have hfin_adj : ∀ i ∈ wfAdjustableSet p fl (fun j => some (cv j)),
          wfFinal p fl (fun j => some (cv j)) i = fl i := by
        intro i hi
        have hlt := ((wfAdjustable_some_iff p fl cv i).mp hi).1
        have hle : wfAdjusted (wfClamp p fl (fun j => some (cv j))) fl
            (fun j => some (cv j)) (wfAdjustableSet p fl (fun j => some (cv j)))
            (wfDeficit p fl (fun j => some (cv j))) i ≤ fl i := by
          rw [hW i]
          simp only [hi, if_pos]
          nlinarith [sub_pos.mpr hlt]
        rw [hfinal i]
        exact clampEntry_eq_floor hle (hfc i)
      have hfin_nonadj : ∀ i ∉ wfAdjustableSet p fl (fun j => some (cv j)),
          wfFinal p fl (fun j => some (cv j)) i =
            wfClamp p fl (fun j => some (cv j)) i := by
        intro i hi
        rw [hfinal i, hW i]
        simp only [hi, if_neg, if_false]
        exact clampEntry_eq_self (hbounds i).1 (hbounds i).2
      have hTsplit : ∑ i, wfFinal p fl (fun j => some (cv j)) i =
          (∑ i ∈ wfAdjustableSet p fl (fun j => some (cv j)), fl i) +
            ∑ i ∈ (wfAdjustableSet p fl (fun j => some (cv j)))ᶜ,
              wfClamp p fl (fun j => some (cv j)) i := by
        rw [← Finset.sum_add_sum_compl (wfAdjustableSet p fl (fun j => some (cv j)))
          (wfFinal p fl (fun j => some (cv j)))]
        congr 1
        · exact Finset.sum_congr rfl hfin_adj
        · exact Finset.sum_congr rfl fun i hi =>
            hfin_nonadj i (Finset.mem_compl.mp hi)
      by_contra hT0
      push_neg at hT0
      have hfl0 : ∑ i ∈ wfAdjustableSet p fl (fun j => some (cv j)), fl i = 0 := by
        have h1 : 0 ≤ ∑ i ∈ wfAdjustableSet p fl (fun j => some (cv j)), fl i :=
          Finset.sum_nonneg fun i _ => hf0 i
        have h2 : 0 ≤ ∑ i ∈ (wfAdjustableSet p fl (fun j => some (cv j)))ᶜ,
            wfClamp p fl (fun j => some (cv j)) i :=
          Finset.sum_nonneg fun i _ => le_trans (hf0 i) (hbounds i).1
        rw [hTsplit] at hT0
        linarith
      have hpc0 : ∑ i ∈ (wfAdjustableSet p fl (fun j => some (cv j)))ᶜ,
          wfClamp p fl (fun j => some (cv j)) i = 0 := by
        have h1 : 0 ≤ ∑ i ∈ wfAdjustableSet p fl (fun j => some (cv j)), fl i :=
          Finset.sum_nonneg fun i _ => hf0 i
        have h2 : 0 ≤ ∑ i ∈ (wfAdjustableSet p fl (fun j => some (cv j)))ᶜ,
            wfClamp p fl (fun j => some (cv j)) i :=
          Finset.sum_nonneg fun i _ => le_trans (hf0 i) (hbounds i).1
        rw [hTsplit] at hT0
        linarith
      have hcap2eq : wfCapacityDown (wfClamp p fl (fun j => some (cv j))) fl
          (wfAdjustableSet p fl (fun j => some (cv j))) =
          ∑ i ∈ wfAdjustableSet p fl (fun j => some (cv j)),
            wfClamp p fl (fun j => some (cv j)) i := by
        unfold wfCapacityDown
        rw [Finset.sum_sub_distrib, hfl0, sub_zero]
      have hSeq : ∑ i, wfClamp p fl (fun j => some (cv j)) i =
          ∑ i ∈ wfAdjustableSet p fl (fun j => some (cv j)),
            wfClamp p fl (fun j => some (cv j)) i := by
        rw [← Finset.sum_add_sum_compl (wfAdjustableSet p fl (fun j => some (cv j)))
          (wfClamp p fl (fun j => some (cv j))), hpc0, add_zero]
      have hΔeq : wfDeficit p fl (fun j => some (cv j)) =
          1 - ∑ i, wfClamp p fl (fun j => some (cv j)) i := rfl
      rw [hcap2eq, ← hSeq, hΔeq] at hrem
      linarith
    · -- even removal: the adjusted vector sums to exactly 1 and clipping
      -- only raises entries
      have hc0 : (0:ℚ) < ((wfAdjustableSet p fl (fun j => some (cv j))).card : ℚ) := by
        exact_mod_cast Finset.card_pos.mpr hne
      have hW : ∀ i, wfAdjusted (wfClamp p fl (fun j => some (cv j))) fl
          (fun j => some (cv j)) (wfAdjustableSet p fl (fun j => some (cv j)))
          (wfDeficit p fl (fun j => some (cv j))) i =
          if i ∈ wfAdjustableSet p fl (fun j => some (cv j)) then
            wfClamp p fl (fun j => some (cv j)) i +
              wfDeficit p fl (fun j => some (cv j)) /
                ((wfAdjustableSet p fl (fun j => some (cv j))).card : ℚ)
          else wfClamp p fl (fun j => some (cv j)) i := by
        intro i
        unfold wfAdjusted
        rw [if_neg hd, if_neg hrem]
      have hWsum : ∑ i, wfAdjusted (wfClamp p fl (fun j => some (cv j))) fl
          (fun j => some (cv j)) (wfAdjustableSet p fl (fun j => some (cv j)))
          (wfDeficit p fl (fun j => some (cv j))) i
          = (∑ i, wfClamp p fl (fun j => some (cv j)) i) +
            wfDeficit p fl (fun j => some (cv j)) := by
        calc ∑ i, wfAdjusted (wfClamp p fl (fun j => some (cv j))) fl
              (fun j => some (cv j)) (wfAdjustableSet p fl (fun j => some (cv j)))
              (wfDeficit p fl (fun j => some (cv j))) i
            = (∑ i ∈ wfAdjustableSet p fl (fun j => some (cv j)),
                (wfClamp p fl (fun j => some (cv j)) i +
                  wfDeficit p fl (fun j => some (cv j)) /
                    ((wfAdjustableSet p fl (fun j => some (cv j))).card : ℚ))) +
              ∑ i ∈ (wfAdjustableSet p fl (fun j => some (cv j)))ᶜ,
                wfClamp p fl (fun j => some (cv j)) i := by
              rw [← Finset.sum_add_sum_compl (wfAdjustableSet p fl (fun j => some (cv j)))]
              congr 1
              · exact Finset.sum_congr rfl fun i hi => by rw [hW i]; simp [hi]
              · exact Finset.sum_congr rfl fun i hi => by
                  rw [hW i]; simp [Finset.mem_compl.mp hi]
          _ = (∑ i, wfClamp p fl (fun j => some (cv j)) i) +
              wfDeficit p fl (fun j => some (cv j)) := by
              rw [Finset.sum_add_distrib, Finset.sum_const, nsmul_eq_mul,
                mul_div_cancel₀ _ (ne_of_gt hc0),
                ← Finset.sum_add_sum_compl (wfAdjustableSet p fl (fun j => some (cv j)))
                  (wfClamp p fl (fun j => some (cv j)))]
              ring
      have hWle : ∀ i, wfAdjusted (wfClamp p fl (fun j => some (cv j))) fl
          (fun j => some (cv j)) (wfAdjustableSet p fl (fun j => some (cv j)))
          (wfDeficit p fl (fun j => some (cv j))) i
          ≤ wfFinal p fl (fun j => some (cv j)) i := by
        intro i
        rw [hfinal i]
        by_cases hi : i ∈ wfAdjustableSet p fl (fun j => some (cv j))
        · have hneg : wfDeficit p fl (fun j => some (cv j)) /
              ((wfAdjustableSet p fl (fun j => some (cv j))).card : ℚ) ≤ 0 :=
            div_nonpos_of_nonpos_of_nonneg (le_of_not_lt hd) (le_of_lt hc0)
          have hle_pc : wfAdjusted (wfClamp p fl (fun j => some (cv j))) fl
              (fun j => some (cv j)) (wfAdjustableSet p fl (fun j => some (cv j)))
              (wfDeficit p fl (fun j => some (cv j))) i
              ≤ wfClamp p fl (fun j => some (cv j)) i := by
            rw [hW i]; simp only [hi, if_pos]; linarith
          exact self_le_clampEntry _ (le_trans hle_pc (hbounds i).2)
        · rw [hW i]
          simp only [hi, if_neg, if_false]
          rw [clampEntry_eq_self (hbounds i).1 (hbounds i).2]
      have hΔeq : wfDeficit p fl (fun j => some (cv j)) =
          1 - ∑ i, wfClamp p fl (fun j => some (cv j)) i := rfl
      calc (0:ℚ) < 1 := one_pos
        _ = (∑ i, wfClamp p fl (fun j => some (cv j)) i) +
            wfDeficit p fl (fun j => some (cv j)) := by rw [hΔeq]; ring
        _ = _ := hWsum.symm
        _ ≤ ∑ i, wfFinal p fl (fun j => some (cv j)) i :=
            Finset.sum_le_sum fun i _ => hWle i

/-- C2 (amended): with finite ceilings, nonnegative floors below the
ceilings, and a clamped vector of positive sum, the water-filling output
sums to 1 within 1e-9; the per-entry bounds `floor ≤ out ≤ ceiling` are
guaranteed when the clamped deficit is already below the 1e-10 acceptance
threshold (outside that case the final clip-and-renormalize or the
all-saturated fallback may violate them, see the counterexample). -/
theorem waterFilling_sum_one_and_clamped_bounds {n : ℕ} (p fl cv : Fin n → ℚ)
    (_hsum : ∑ i, p i = 1) (_hfsum : ∑ i, fl i ≤ 1)
    (hf0 : ∀ i, 0 ≤ fl i) (hfc : ∀ i, fl i ≤ cv i)
    (hS : 0 < ∑ i, wfClamp p fl (fun j => some (cv j)) i) :
    |(∑ i, waterFilling p fl (fun j => some (cv j)) i) - 1| < 1 / 10 ^ 9 ∧
      (|wfDeficit p fl (fun j => some (cv j))| < 1 / 10 ^ 10 →
        ∀ i, fl i ≤ waterFilling p fl (fun j => some (cv j)) i ∧
          waterFilling p fl (fun j => some (cv j)) i ≤ cv i) := by
  have hbounds := wfClamp_some_bounds p fl cv hfc
  by_cases h1 : |wfDeficit p fl (fun j => some (cv j))| < 1 / 10 ^ 10
  · have hwf : waterFilling p fl (fun j => some (cv j)) =
        wfClamp p fl (fun j => some (cv j)) := by
      unfold waterFilling
      rw [if_pos h1]
    constructor
    · rw [hwf]
      have hΔ : wfDeficit p fl (fun j => some (cv j)) =
          1 - ∑ i, wfClamp p fl (fun j => some (cv j)) i := rfl
      have habs : |(∑ i, wfClamp p fl (fun j => some (cv j)) i) - 1| =
          |wfDeficit p fl (fun j => some (cv j))| := by
        rw [hΔ, abs_sub_comm]
      rw [habs]
      calc |wfDeficit p fl (fun j => some (cv j))| < 1 / 10 ^ 10 := h1
        _ < 1 / 10 ^ 9 := by norm_num
    · intro _ i
      rw [hwf]
      exact hbounds i
  · refine ⟨?_, fun h => absurd h h1⟩
    by_cases h2 : (wfAdjustableSet p fl (fun j => some (cv j))).card = 0
    · have hwf : waterFilling p fl (fun j => some (cv j)) =
          fun i => wfClamp p fl (fun j => some (cv j)) i /
            ∑ j, wfClamp p fl (fun j => some (cv j)) j := by
        unfold waterFilling
        rw [if_neg h1, if_pos h2]
      rw [hwf]
      rw [← Finset.sum_div, div_self (ne_of_gt hS)]
      norm_num
    · have hwf : waterFilling p fl (fun j => some (cv j)) =
          fun i => wfFinal p fl (fun j => some (cv j)) i /
            ∑ j, wfFinal p fl (fun j => some (cv j)) j := by
        unfold waterFilling
        rw [if_neg h1, if_neg h2]
      have hT := wfFinal_some_sum_pos p fl cv hf0 hfc hS h2
      rw [hwf]
      rw [← Finset.sum_div, div_self (ne_of_gt hT)]
      norm_num

/-- C3 (amended): when mass must be added (`0 < deficit`) over a nonempty
adjustable set, the code adds the same share `deficit / n_adjustable` to
every adjustable entry by default, and distributes proportionally to each
entry's remaining capacity `(ceiling - value)` only when the total
remaining capacity is finite and smaller than the deficit; in both cases
the added mass totals the deficit, and entries outside the adjustable set
are unchanged. -/
theorem wfAdjusted_even_default_proportional_shortfall {n : ℕ}
    (pc fl : Fin n → ℚ) (ce : Fin n → Option ℚ) (adj : Finset (Fin n))
    (deficit : ℚ) (hd : 0 < deficit) (hne : adj.Nonempty)
    (hadj : ∀ i ∈ adj, fl i < pc i ∧ ltCeil (pc i) (ce i)) :
    (∀ i, i ∉ adj → wfAdjusted pc fl ce adj deficit i = pc i) ∧
    (((∀ i ∈ adj, (ce i).isSome) ∧ wfCapacityUp pc ce adj < deficit) →
      (∀ i ∈ adj, (wfAdjusted pc fl ce adj deficit i - pc i) * wfCapacityUp pc ce adj
          = (ceilVal (ce i) - pc i) * deficit) ∧
        ∑ i ∈ adj, (wfAdjusted pc fl ce adj deficit i - pc i) = deficit) ∧
    (¬ ((∀ i ∈ adj, (ce i).isSome) ∧ wfCapacityUp pc ce adj < deficit) →
      (∀ i ∈ adj, wfAdjusted pc fl ce adj deficit i - pc i = deficit / (adj.card : ℚ)) ∧
        ∑ i ∈ adj, (wfAdjusted pc fl ce adj deficit i - pc i) = deficit) := by
  have hcard : ((adj.card : ℚ)) ≠ 0 := by
    exact_mod_cast Finset.card_ne_zero_of_mem hne.choose_spec
  refine ⟨?_, ?_, ?_⟩
  · intro i hi
    unfold wfAdjusted
    rw [if_pos hd]
    split_ifs <;> simp [hi]
  · intro hcond
    have hcap : 0 < wfCapacityUp pc ce adj := by
      refine Finset.sum_pos (fun i hi => ?_) hne
      have h1 := (hadj i hi).2
      have h2 := hcond.1 i hi
      match hsome : ce i, h2 with
      | some c, _ =>
        have : pc i < c := by
          have := h1
          rw [hsome] at this
          exact this
        simp [ceilVal, hsome, sub_pos, this]
    have hW : wfAdjusted pc fl ce adj deficit = fun i =>
        if i ∈ adj then
          pc i + (ceilVal (ce i) - pc i) * (deficit / wfCapacityUp pc ce adj)
        else pc i := by
      unfold wfAdjusted
      rw [if_pos hd, if_pos hcond]
    constructor
    · intro i hi
      rw [hW]
      simp only [hi, if_pos]
      rw [add_sub_cancel_left, mul_assoc, div_mul_cancel₀ _ (ne_of_gt hcap)]
    · rw [hW]
      have : ∀ i ∈ adj,
          (if i ∈ adj then
            pc i + (ceilVal (ce i) - pc i) * (deficit / wfCapacityUp pc ce adj)
          else pc i) - pc i
          = (ceilVal (ce i) - pc i) * (deficit / wfCapacityUp pc ce adj) := by
        intro i hi
        simp [hi]
      rw [Finset.sum_congr rfl this, ← Finset.sum_mul]
      rw [show (∑ i ∈ adj, (ceilVal (ce i) - pc i)) = wfCapacityUp pc ce adj from rfl]
      rw [mul_comm, div_mul_cancel₀ _ (ne_of_gt hcap)]
  · intro hcond
    have hW : wfAdjusted pc fl ce adj deficit = fun i =>
        if i ∈ adj then pc i + deficit / (adj.card : ℚ) else pc i := by
      unfold wfAdjusted
      rw [if_pos hd, if_neg hcond]
    constructor
    · intro i hi
      rw [hW]
      simp [hi]
    · rw [hW]
      have : ∀ i ∈ adj,
          (if i ∈ adj then pc i + deficit / (adj.card : ℚ) else pc i) - pc i
          = deficit / (adj.card : ℚ) := by
        intro i hi
        simp [hi]
      rw [Finset.sum_congr rfl this, Finset.sum_const, nsmul_eq_mul,
        mul_div_cancel₀ _ hcard]

/-- C2 counterexample: for `p = [1]`, `floors = [1/2]`, `ceilings = [1/2]`
— an input summing to 1 with `sum(floors) ≤ 1` and finite ceilings above
the floors — the projection returns `[1]`: every entry is saturated, the
code falls back to the proportional rescale, and the ceiling `1/2` is
violated. -/
theorem waterFilling_ceiling_violated :
    (∑ i, (![(1:ℚ)] : Fin 1 → ℚ) i) = 1 ∧
    (∑ i, (![(1:ℚ)/2] : Fin 1 → ℚ) i) ≤ 1 ∧
    (∀ i : Fin 1, (![(1:ℚ)/2] : Fin 1 → ℚ) i ≤ (![(1:ℚ)/2] : Fin 1 → ℚ) i) ∧
    waterFilling (n := 1) ![1] ![1/2] (fun j => some (![(1:ℚ)/2] j)) 0 = 1 ∧
    ¬ waterFilling (n := 1) ![1] ![1/2] (fun j => some (![(1:ℚ)/2] j)) 0
        ≤ (![(1:ℚ)/2] : Fin 1 → ℚ) 0 := by
  have heval : waterFilling (n := 1) ![1] ![1/2] (fun j => some (![(1:ℚ)/2] j)) 0 = 1 := by
    norm_num [waterFilling, wfDeficit, wfClamp, clampEntry, wfAdjustableSet,
      ltCeil, Fin.sum_univ_succ, Finset.filter_eq_empty_iff, abs_lt]
  refine ⟨by norm_num [Fin.sum_univ_succ], by norm_num [Fin.sum_univ_succ],
    fun i => le_rfl, heval, ?_⟩
  rw [heval]
  norm_num

/-- Witness for `waterFilling_sum_one_and_clamped_bounds` at
`p = [1/2, 1/2]`, `floors = [0, 0]`, `ceilings = [1, 1]`. -/
theorem waterFilling_sum_one_witness :
    ((∑ i, (![(1:ℚ)/2, 1/2] : Fin 2 → ℚ) i) = 1) ∧
    ((0:ℚ) < ∑ i, wfClamp ![(1:ℚ)/2, 1/2] ![0, 0] (fun j => some ((![(1:ℚ), 1]) j)) i) ∧
    (|(∑ i, waterFilling ![(1:ℚ)/2, 1/2] ![0, 0] (fun j => some ((![(1:ℚ), 1]) j)) i) - 1|
        < 1 / 10 ^ 9 ∧
      (|wfDeficit ![(1:ℚ)/2, 1/2] ![0, 0] (fun j => some ((![(1:ℚ), 1]) j))| < 1 / 10 ^ 10 →
        ∀ i, (![(0:ℚ), 0]) i ≤
            waterFilling ![(1:ℚ)/2, 1/2] ![0, 0] (fun j => some ((![(1:ℚ), 1]) j)) i ∧
          waterFilling ![(1:ℚ)/2, 1/2] ![0, 0] (fun j => some ((![(1:ℚ), 1]) j)) i
            ≤ (![(1:ℚ), 1]) i)) :=
  ⟨by norm_num [Fin.sum_univ_two],
   by norm_num [wfClamp, clampEntry, Fin.sum_univ_two],
   waterFilling_sum_one_and_clamped_bounds ![(1:ℚ)/2, 1/2] ![0, 0] ![1, 1]
     (by norm_num [Fin.sum_univ_two])
     (by norm_num [Fin.sum_univ_two])
     (fun i => by fin_cases i <;> norm_num)
     (fun i => by fin_cases i <;> norm_num)
     (by norm_num [wfClamp, clampEntry, Fin.sum_univ_two])⟩

/-- C3 counterexample: for the clamped vector `[1/2, 1/10, 1/10]`, floors
`0`, ceilings `[10, 1, 1]`, the deficit is `3/10` and the total remaining
capacity `113/10` exceeds it, so the claim prescribes the proportional
allocation; the code distributes evenly instead (entry 0 gets `+1/10`,
becoming `3/5`, not `1/2 + (19/2)·(3/113)`). -/
theorem wfAdjusted_refutes_claimed_allocation :
    0 < wfDeficit (n := 3) ![1/2, 1/10, 1/10] ![0, 0, 0]
        (fun j => some (![(10:ℚ), 1, 1] j)) ∧
    (wfAdjustableSet (n := 3) ![1/2, 1/10, 1/10] ![0, 0, 0]
        (fun j => some (![(10:ℚ), 1, 1] j))).Nonempty ∧
    wfAdjusted
        (wfClamp ![1/2, 1/10, 1/10] ![0, 0, 0] (fun j => some (![(10:ℚ), 1, 1] j)))
        ![0, 0, 0] (fun j => some (![(10:ℚ), 1, 1] j))
        (wfAdjustableSet ![1/2, 1/10, 1/10] ![0, 0, 0] (fun j => some (![(10:ℚ), 1, 1] j)))
        (wfDeficit ![1/2, 1/10, 1/10] ![0, 0, 0] (fun j => some (![(10:ℚ), 1, 1] j)))
      ≠ wfAdjustedClaimed
        (wfClamp ![1/2, 1/10, 1/10] ![0, 0, 0] (fun j => some (![(10:ℚ), 1, 1] j)))
        (fun j => some (![(10:ℚ), 1, 1] j))
        (wfAdjustableSet ![1/2, 1/10, 1/10] ![0, 0, 0] (fun j => some (![(10:ℚ), 1, 1] j)))
        (wfDeficit ![1/2, 1/10, 1/10] ![0, 0, 0] (fun j => some (![(10:ℚ), 1, 1] j))) := by
  have hpc : wfClamp (n := 3) ![1/2, 1/10, 1/10] ![0, 0, 0]
      (fun j => some (![(10:ℚ), 1, 1] j)) = ![1/2, 1/10, 1/10] := by
    funext i
    fin_cases i <;> norm_num [wfClamp, clampEntry]
  have hΔ : wfDeficit (n := 3) ![1/2, 1/10, 1/10] ![0, 0, 0]
      (fun j => some (![(10:ℚ), 1, 1] j)) = 3/10 := by
    unfold wfDeficit
    rw [hpc]
    norm_num [Fin.sum_univ_three]
  have hadjset : wfAdjustableSet (n := 3) ![1/2, 1/10, 1/10] ![0, 0, 0]
      (fun j => some (![(10:ℚ), 1, 1] j)) = Finset.univ := by
    ext i
    simp only [wfAdjustableSet, Finset.mem_filter, Finset.mem_univ, true_and,
      iff_true, hpc]
    fin_cases i <;> norm_num [ltCeil]
  have hcap : wfCapacityUp (n := 3) ![1/2, 1/10, 1/10]
      (fun j => some (![(10:ℚ), 1, 1] j)) Finset.univ = 113/10 := by
    norm_num [wfCapacityUp, ceilVal, Fin.sum_univ_three]
  refine ⟨by rw [hΔ]; norm_num, by rw [hadjset]; exact Finset.univ_nonempty, ?_⟩
  rw [hpc, hadjset, hΔ]
  intro heq
  have h0 := congrFun heq 0
  unfold wfAdjusted wfAdjustedClaimed at h0
  rw [hcap] at h0
  norm_num [Finset.card_univ, ceilVal] at h0

/-- Witness for `wfAdjusted_even_default_proportional_shortfall` at the
clamped vector `[1/2, 1/10, 1/10]`, floors `0`, ceilings `[10, 1, 1]`,
adjustable set `univ`, deficit `3/10`. -/
theorem wfAdjusted_even_witness :
    (0:ℚ) < 3/10 ∧ (Finset.univ : Finset (Fin 3)).Nonempty ∧
    ((∀ i, i ∉ (Finset.univ : Finset (Fin 3)) →
        wfAdjusted ![1/2, 1/10, 1/10] ![0, 0, 0]
          (fun j => some (![(10:ℚ), 1, 1] j)) Finset.univ (3/10) i
          = (![(1:ℚ)/2, 1/10, 1/10]) i) ∧
      (((∀ i ∈ (Finset.univ : Finset (Fin 3)),
            ((fun j => some (![(10:ℚ), 1, 1] j)) i).isSome) ∧
          wfCapacityUp ![1/2, 1/10, 1/10] (fun j => some (![(10:ℚ), 1, 1] j))
            Finset.univ < 3/10) →
        (∀ i ∈ (Finset.univ : Finset (Fin 3)),
          (wfAdjusted ![1/2, 1/10, 1/10] ![0, 0, 0]
              (fun j => some (![(10:ℚ), 1, 1] j)) Finset.univ (3/10) i
              - (![(1:ℚ)/2, 1/10, 1/10]) i) *
            wfCapacityUp ![1/2, 1/10, 1/10] (fun j => some (![(10:ℚ), 1, 1] j))
              Finset.univ
            = (ceilVal ((fun j => some (![(10:ℚ), 1, 1] j)) i)
                - (![(1:ℚ)/2, 1/10, 1/10]) i) * (3/10)) ∧
          ∑ i ∈ (Finset.univ : Finset (Fin 3)),
            (wfAdjusted ![1/2, 1/10, 1/10] ![0, 0, 0]
              (fun j => some (![(10:ℚ), 1, 1] j)) Finset.univ (3/10) i
              - (![(1:ℚ)/2, 1/10, 1/10]) i) = 3/10) ∧
      (¬ ((∀ i ∈ (Finset.univ : Finset (Fin 3)),
            ((fun j => some (![(10:ℚ), 1, 1] j)) i).isSome) ∧
          wfCapacityUp ![1/2, 1/10, 1/10] (fun j => some (![(10:ℚ), 1, 1] j))
            Finset.univ < 3/10) →
        (∀ i ∈ (Finset.univ : Finset (Fin 3)),
          wfAdjusted ![1/2, 1/10, 1/10] ![0, 0, 0]
            (fun j => some (![(10:ℚ), 1, 1] j)) Finset.univ (3/10) i
            - (![(1:ℚ)/2, 1/10, 1/10]) i
            = (3/10) / ((Finset.univ : Finset (Fin 3)).card : ℚ)) ∧
          ∑ i ∈ (Finset.univ : Finset (Fin 3)),
            (wfAdjusted ![1/2, 1/10, 1/10] ![0, 0, 0]
              (fun j => some (![(10:ℚ), 1, 1] j)) Finset.univ (3/10) i
              - (![(1:ℚ)/2, 1/10, 1/10]) i) = 3/10)) :=
  ⟨by norm_num, Finset.univ_nonempty,
   wfAdjusted_even_default_proportional_shortfall
     ![1/2, 1/10, 1/10] ![0, 0, 0] (fun j => some (![(10:ℚ), 1, 1] j))
     Finset.univ (3/10) (by norm_num) Finset.univ_nonempty
     (fun i _ => by fin_cases i <;> norm_num [ltCeil])⟩

/-! ## The transition matrix and the sparse baseline on `twoPages` -/

lemma twoPagesM_core : twoPagesM = buildCore 2 [1, 2] [(1, 2)] [] [] true := rfl

lemma twoPagesM_eval :
    ∀ i j, twoPagesM i j = (![![0, 0], ![1, 0]] : Fin 2 → Fin 2 → ℚ) i j := by
  intro i j
  rw [twoPagesM_core]
  fin_cases i <;> fin_cases j <;>
  · simp only [buildCore, transitionM, rowSum, Fin.sum_univ_two]
    norm_num [buildA, lastIdxOf, linkWeight, lookupLastD, lookupLast]

/-- C4 (code bug): over `twoPages` with the single link `1 → 2`, page 2 is
dangling and its column of the transition matrix is all zeros — it sums to
0, not 1, and no entry is the uniform `1/n = 1/2`.  The line
`out_degrees[out_degrees == 0] = 1` only avoids a division by zero; it
does not make the dangling node link uniformly.  The column of the
non-dangling page 1 does sum to 1. -/
theorem transition_matrix_dangling_column_zero :
    (∑ i, twoPagesM i 0) = 1 ∧ (∑ i, twoPagesM i 1) = 0 ∧
      ∀ i, twoPagesM i 1 ≠ 1 / 2 := by
  refine ⟨?_, ?_, fun i => ?_⟩
  · rw [Fin.sum_univ_two, twoPagesM_eval 0 0, twoPagesM_eval 1 0]
    norm_num
  · rw [Fin.sum_univ_two, twoPagesM_eval 0 1, twoPagesM_eval 1 1]
    norm_num
  · fin_cases i <;> rw [twoPagesM_eval] <;> norm_num

/-- C1 (code bug): the sparse-matrix baseline path cannot return any score
vector when `max_iter ≥ 1`: iteration 0 always reaches the convergence
check (`0 % 10 == 0`), which calls `scipy.sparse.linalg.norm` on the dense
difference vector and raises `TypeError` — shown here on `twoPages` with
`max_iter = 100` (the call's default).  The only run that does return,
`max_iter = 0`, returns the untouched uniform vector `[1/2, 1/2]`, whose
scores sum to 1 within 1e-6. -/
theorem sparse_baseline_raises_not_sparse_typeerror :
    sparsePagerank twoPages [(1, 2)] (17/20) 100 (1/10^4) []
      = .error "TypeError: input is not sparse. use numpy.linalg.norm" ∧
    sparsePagerank twoPages [(1, 2)] (17/20) 0 (1/10^4) []
      = .ok [(1, 1/2), (2, 1/2)] ∧
    |(([(1, (1:ℚ)/2), (2, 1/2)].map Prod.snd).sum) - 1| < 1/10^6 := by
  have hcore : ∀ k : ℕ, sparsePagerank twoPages [(1, 2)] (17/20) k (1/10^4) []
      = sparseCore 2 [1, 2] [(1, 2)] (17/20) k (1/10^4) [] := fun k => rfl
  refine ⟨?_, ?_, ?_⟩
  · rw [hcore]
    rfl
  · rw [hcore]
    simp only [sparseCore, powerIterLoop, List.ofFn_succ, List.ofFn_zero]
    norm_num
  · norm_num

/-! ## The "exact" branch and the URL-resolution of the solver inputs -/

/-- C5: the "exact" branch is a stub that delegates to the fast branch:
`_calculate_exact` returns exactly `_calculate_fast`'s output on every
input, so the fast/exact mode-selection heuristic never changes the
computed scores. -/
theorem calculateExact_eq_calculateFast (pd : PageData) (links : List (ℕ × ℕ))
    (baselinePr : List (ℕ × ℚ)) (d etaP etaB tol : ℚ) (maxIter : ℕ) :
    calculateExact pd links baselinePr d etaP etaB tol maxIter
      = calculateFast pd links baselinePr d etaP etaB tol maxIter := rfl

lemma resolvePairs_unmatched (pages : List Page) (l1 l2 : List (String × ℚ))
    (u : String) (x : ℚ) (hu : urlToId pages u = none) :
    resolvePairs pages (l1 ++ (u, x) :: l2) = resolvePairs pages (l1 ++ l2) := by
  unfold resolvePairs
  rw [List.foldl_append, List.foldl_append, List.foldl_cons]
  simp only [hu]

/-- C10: an entry of the protected-pages, boosted-pages or outflow-cap map
whose URL matches no page is silently dropped by `_prepare_page_data`: the
solver's returned score vector is identical with that entry absent (and no
error is raised — the embedding is total). -/
theorem unmatched_urls_ignored_by_solver
    (bc : List Page → List (ℕ × ℕ) → ℚ → ℚ → List ((ℕ × ℕ) × ℚ) → List (ℕ × ℚ))
    (pages : List Page) (links : List (ℕ × ℕ)) (lw : List ((ℕ × ℕ) × ℚ))
    (P1 P2 B1 B2 K1 K2 P B K : List (String × ℚ))
    (up ub uk : String) (fp fb fk : ℚ)
    (etaP etaB d tol : ℚ) (maxIter selfMaxIter : ℕ) (thr : ℚ) :
    (urlToId pages up = none →
      advancedCalculate bc pages links lw (P1 ++ (up, fp) :: P2) B K
          etaP etaB d tol maxIter selfMaxIter thr
        = advancedCalculate bc pages links lw (P1 ++ P2) B K
            etaP etaB d tol maxIter selfMaxIter thr) ∧
    (urlToId pages ub = none →
      advancedCalculate bc pages links lw P (B1 ++ (ub, fb) :: B2) K
          etaP etaB d tol maxIter selfMaxIter thr
        = advancedCalculate bc pages links lw P (B1 ++ B2) K
            etaP etaB d tol maxIter selfMaxIter thr) ∧
    (urlToId pages uk = none →
      advancedCalculate bc pages links lw P B (K1 ++ (uk, fk) :: K2)
          etaP etaB d tol maxIter selfMaxIter thr
        = advancedCalculate bc pages links lw P B (K1 ++ K2)
            etaP etaB d tol maxIter selfMaxIter thr) := by
  refine ⟨fun h => ?_, fun h => ?_, fun h => ?_⟩ <;>
  · simp only [advancedCalculate, preparePageData]
    rw [resolvePairs_unmatched _ _ _ _ _ h]

/-- Witness for `unmatched_urls_ignored_by_solver`: over `twoPages`, the
URL "missing" matches no page, and dropping the corresponding entry from
each of the three maps leaves the solver's output unchanged. -/
theorem unmatched_urls_ignored_witness :
    urlToId twoPages "missing" = none ∧
    (advancedCalculate (fun _ _ _ _ _ => []) twoPages [(1, 2)] []
        ([("https://site/a", 1/2)] ++ [("missing", 1/2)] ++ []) [] []
        (1/20) (3/100) (17/20) (1/10^8) 5 5 900
      = advancedCalculate (fun _ _ _ _ _ => []) twoPages [(1, 2)] []
        ([("https://site/a", 1/2)] ++ []) [] []
        (1/20) (3/100) (17/20) (1/10^8) 5 5 900) ∧
    (advancedCalculate (fun _ _ _ _ _ => []) twoPages [(1, 2)] []
        [] ([] ++ [("missing", 2)] ++ []) []
        (1/20) (3/100) (17/20) (1/10^8) 5 5 900
      = advancedCalculate (fun _ _ _ _ _ => []) twoPages [(1, 2)] []
        [] ([] ++ []) []
        (1/20) (3/100) (17/20) (1/10^8) 5 5 900) ∧
    (advancedCalculate (fun _ _ _ _ _ => []) twoPages [(1, 2)] []
        [] [] ([] ++ [("missing", 9/10)] ++ [])
        (1/20) (3/100) (17/20) (1/10^8) 5 5 900
      = advancedCalculate (fun _ _ _ _ _ => []) twoPages [(1, 2)] []
        [] [] ([] ++ [])
        (1/20) (3/100) (17/20) (1/10^8) 5 5 900) := by
  have h : urlToId twoPages "missing" = none := by decide
  have t1 := (unmatched_urls_ignored_by_solver (fun _ _ _ _ _ => []) twoPages
    [(1, 2)] [] [("https://site/a", 1/2)] [] [] [] [] [] [] [] []
    "missing" "missing" "missing" (1/2) 2 (9/10)
    (1/20) (3/100) (17/20) (1/10^8) 5 5 900).1 h
  have t2 := (unmatched_urls_ignored_by_solver (fun _ _ _ _ _ => []) twoPages
    [(1, 2)] [] [] [] [] [] [] [] [] [] []
    "missing" "missing" "missing" (1/2) 2 (9/10)
    (1/20) (3/100) (17/20) (1/10^8) 5 5 900).2.1 h
  have t3 := (unmatched_urls_ignored_by_solver (fun _ _ _ _ _ => []) twoPages
    [(1, 2)] [] [] [] [] [] [] [] [] [] []
    "missing" "missing" "missing" (1/2) 2 (9/10)
    (1/20) (3/100) (17/20) (1/10^8) 5 5 900).2.2 h
  exact ⟨h, t1, t2, t3⟩

/-! ## Rule engine: selectors pick among their candidates -/

lemma categorySelect_subset (sample : Sampler)
    (hsub : ∀ xs k, sample xs k ⊆ xs) (src : Page) (cands : List Page) (m : ℕ) :
    categorySelect sample src cands m ⊆ cands := by
  simp only [categorySelect]
  split_ifs with h
  · exact fun x hx => List.mem_of_mem_filter hx
  · exact fun x hx => List.mem_of_mem_filter (hsub _ _ hx)

lemma semanticSelect_subset (sample : Sampler)
    (hsub : ∀ xs k, sample xs k ⊆ xs) (src : Page) (cands : List Page) (m : ℕ) :
    semanticSelect sample src cands m ⊆ cands := by
  intro x hx
  simp only [semanticSelect, List.mem_append] at hx
  rcases hx with h | h <;> split_ifs at h <;>
    first
      | exact List.mem_of_mem_filter (hsub _ _ h)
      | simp at h

lemma randomSelect_subset (sample : Sampler)
    (hsub : ∀ xs k, sample xs k ⊆ xs) (src : Page) (cands : List Page) (m : ℕ) :
    randomSelect sample src cands m ⊆ cands := by
  unfold randomSelect
  split_ifs with h
  · exact fun x hx => hx
  · exact hsub _ _

lemma pagerankSelect_subset (hi : Bool) (src : Page) (cands : List Page) (m : ℕ) :
    pagerankSelect hi src cands m ⊆ cands := by
  unfold pagerankSelect
  split_ifs <;>
    exact fun x hx =>
      (List.perm_insertionSort _ _).subset (List.take_subset _ _ hx)

lemma runSelector_subset (sample : Sampler) (hsub : ∀ xs k, sample xs k ⊆ xs)
    (method : String) (src : Page) (cands : List Page) (m : ℕ) :
    runSelector sample method src cands m ⊆ cands := by
  unfold runSelector
  split_ifs <;>
    first
      | exact categorySelect_subset sample hsub src cands m
      | exact semanticSelect_subset sample hsub src cands m
      | exact randomSelect_subset sample hsub src cands m
      | exact pagerankSelect_subset true src cands m
      | exact pagerankSelect_subset false src cands m

/-! ## Rule engine: no self links, no duplicates -/

lemma emitLinksFor_cons (es : Finset (ℕ × ℕ)) (bid : Bool) (srcId : ℕ)
    (t : Page) (ts : List Page) (acc : List (ℕ × ℕ)) :
    emitLinksFor es bid srcId (t :: ts) acc =
      emitLinksFor es bid srcId ts
        (if (srcId, t.id) ∈ es then acc
         else acc ++ [(srcId, t.id)] ++
           (if bid then (if (t.id, srcId) ∈ es then [] else [(t.id, srcId)])
            else [])) := rfl

lemma emitLinksFor_no_self (es : Finset (ℕ × ℕ)) (bid : Bool) (srcId : ℕ) :
    ∀ (chosen : List Page) (acc : List (ℕ × ℕ)),
      (∀ t ∈ chosen, t.id ≠ srcId) → (∀ y : ℕ, (y, y) ∉ acc) →
      ∀ y : ℕ, (y, y) ∉ emitLinksFor es bid srcId chosen acc := by
  intro chosen
  induction chosen with
  | nil => intro acc _ h2 y; exact h2 y
  | cons t ts ih =>
    intro acc h1 h2 y
    rw [emitLinksFor_cons]
    refine ih _ (fun u hu => h1 u (List.mem_cons_of_mem _ hu)) ?_ y
    intro z hz
    have htid : t.id ≠ srcId := h1 t (List.mem_cons_self _ _)
    split_ifs at hz <;>
      [skip;
       simp only [List.mem_append, List.mem_singleton, List.not_mem_nil,
         or_false, Prod.mk.injEq] at hz;
       simp only [List.mem_append, List.mem_singleton, List.not_mem_nil,
         or_false, Prod.mk.injEq] at hz;
       simp only [List.mem_append, List.mem_singleton, List.not_mem_nil,
         or_false, Prod.mk.injEq] at hz] <;>
      first
        | exact h2 z hz
        | (rcases hz with (hz | hz) | hz
           · exact h2 z hz
           · exact htid (hz.2.symm.trans hz.1)
           · exact htid (hz.1.symm.trans hz.2))
        | (rcases hz with hz | hz
           · exact h2 z hz
           · exact htid (hz.2.symm.trans hz.1))

lemma foldl_no_self {α : Type} (f : List (ℕ × ℕ) → α → List (ℕ × ℕ))
    (hf : ∀ acc a, (∀ y : ℕ, (y, y) ∉ acc) → ∀ y : ℕ, (y, y) ∉ f acc a) :
    ∀ (l : List α) (acc), (∀ y : ℕ, (y, y) ∉ acc) →
      ∀ y : ℕ, (y, y) ∉ l.foldl f acc := by
  intro l
  induction l with
  | nil => intro acc h y; exact h y
  | cons a as ih => intro acc h y; exact ih _ (hf acc a h) y

lemma applySingleRule_no_self (sample : Sampler)
    (hsub : ∀ xs k, sample xs k ⊆ xs) (pages : List Page)
    (es : Finset (ℕ × ℕ)) (cfg : MRuleConfig)
    (hcfg : cfg.avoid_self_links = true) (x : ℕ) :
    (x, x) ∉ applySingleRule sample pages es cfg := by
  simp only [applySingleRule]
  refine foldl_no_self _ (fun acc src hacc => ?_) _ [] (by simp) x
  refine emitLinksFor_no_self es cfg.bidirectional src.id _ acc
    (fun t ht => ?_) hacc
  have ht2 := runSelector_subset sample hsub cfg.selection_method src _
    cfg.links_per_page ht
  rw [hcfg] at ht2
  simp only [if_true] at ht2
  have := (List.mem_filter.mp ht2).2
  simpa using this

lemma dedupAppend_cons (st : List (ℕ × ℕ) × Finset (ℕ × ℕ)) (a : ℕ × ℕ)
    (as : List (ℕ × ℕ)) :
    dedupAppend st (a :: as) =
      dedupAppend (if a ∈ st.2 then st else (st.1 ++ [a], insert a st.2)) as := rfl

lemma dedupAppend_inv (E : Finset (ℕ × ℕ)) :
    ∀ (ls : List (ℕ × ℕ)) (st : List (ℕ × ℕ) × Finset (ℕ × ℕ)),
      st.1.Nodup → (∀ l ∈ st.1, l ∈ st.2) → E ⊆ st.2 → (∀ l ∈ st.1, l ∉ E) →
      (dedupAppend st ls).1.Nodup ∧
        (∀ l ∈ (dedupAppend st ls).1, l ∈ (dedupAppend st ls).2) ∧
        E ⊆ (dedupAppend st ls).2 ∧
        (∀ l ∈ (dedupAppend st ls).1, l ∉ E) := by
  intro ls
  induction ls with
  | nil => intro st h1 h2 h3 h4; exact ⟨h1, h2, h3, h4⟩
  | cons a as ih =>
    intro st h1 h2 h3 h4
    rw [dedupAppend_cons]
    by_cases ha : a ∈ st.2
    · rw [if_pos ha]
      exact ih st h1 h2 h3 h4
    · rw [if_neg ha]
      have hna : a ∉ st.1 := fun hmem => ha (h2 a hmem)
      refine ih _ ?_ ?_ ?_ ?_
      · simp [List.nodup_append, h1, hna]
      · intro l hl
        rcases List.mem_append.mp hl with h' | h'
        · exact Finset.mem_insert_of_mem (h2 l h')
        · simp only [List.mem_singleton] at h'
          subst h'
          exact Finset.mem_insert_self _ _
      · exact h3.trans (Finset.subset_insert _ _)
      · intro l hl
        rcases List.mem_append.mp hl with h' | h'
        · exact h4 l h'
        · simp only [List.mem_singleton] at h'
          subst h'
          exact fun hE => ha (h3 hE)

/-- C6: the multi-rule engine's output contains no duplicate directed edge
and no edge already present in the existing-edge list, for every page
list, edge list, ordered rule-configuration list, and sampling outcome
(several rules, or the bidirectional option, emitting the same edge
included: the running already-present set filters them). -/
theorem generateLinks_nodup_and_fresh (sample : Sampler) (pages : List Page)
    (existing : List (ℕ × ℕ)) (cfgs : List MRuleConfig) :
    (generateLinks sample pages existing cfgs).Nodup ∧
      ∀ l ∈ generateLinks sample pages existing cfgs, l ∉ existing := by
  have key : ∀ (cs : List MRuleConfig) (st : List (ℕ × ℕ) × Finset (ℕ × ℕ)),
      st.1.Nodup → (∀ l ∈ st.1, l ∈ st.2) → existing.toFinset ⊆ st.2 →
      (∀ l ∈ st.1, l ∉ existing.toFinset) →
      (cs.foldl (fun st cfg =>
        dedupAppend st (applySingleRule sample pages st.2 cfg)) st).1.Nodup ∧
        ∀ l ∈ (cs.foldl (fun st cfg =>
          dedupAppend st (applySingleRule sample pages st.2 cfg)) st).1,
          l ∉ existing.toFinset := by
    intro cs
    induction cs with
    | nil => intro st h1 _ _ h4; exact ⟨h1, h4⟩
    | cons c csx ih =>
      intro st h1 h2 h3 h4
      have h' := dedupAppend_inv existing.toFinset
        (applySingleRule sample pages st.2 c) st h1 h2 h3 h4
      exact ih _ h'.1 h'.2.1 h'.2.2.1 h'.2.2.2
  have h0 := key cfgs ([], existing.toFinset) List.nodup_nil (by simp)
    (Finset.Subset.refl _) (by simp)
  unfold generateLinks
  exact ⟨h0.1, fun l hl hle => h0.2 l hl (List.mem_toFinset.mpr hle)⟩

lemma mem_dedupAppend :
    ∀ (ls : List (ℕ × ℕ)) (st : List (ℕ × ℕ) × Finset (ℕ × ℕ)) (l : ℕ × ℕ),
      l ∈ (dedupAppend st ls).1 → l ∈ st.1 ∨ l ∈ ls := by
  intro ls
  induction ls with
  | nil => intro st l h; exact Or.inl h
  | cons a as ih =>
    intro st l h
    rw [dedupAppend_cons] at h
    rcases ih _ l h with h' | h'
    · by_cases ha : a ∈ st.2
      · rw [if_pos ha] at h'
        exact Or.inl h'
      · rw [if_neg ha] at h'
        rcases List.mem_append.mp h' with h'' | h''
        · exact Or.inl h''
        · simp only [List.mem_singleton] at h''
          subst h''
          exact Or.inr (List.mem_cons_self _ _)
    · exact Or.inr (List.mem_cons_of_mem _ h')

lemma mem_generateLinks_exists (sample : Sampler) (pages : List Page) :
    ∀ (cs : List MRuleConfig) (st : List (ℕ × ℕ) × Finset (ℕ × ℕ)) (l : ℕ × ℕ),
      l ∈ (cs.foldl (fun st cfg =>
        dedupAppend st (applySingleRule sample pages st.2 cfg)) st).1 →
      l ∈ st.1 ∨ ∃ cfg ∈ cs, ∃ es, l ∈ applySingleRule sample pages es cfg := by
  intro cs
  induction cs with
  | nil => intro st l h; exact Or.inl h
  | cons c csx ih =>
    intro st l h
    rcases ih _ l h with h' | ⟨cfg, hc, es, he⟩
    · rcases mem_dedupAppend _ _ _ h' with h'' | h''
      · exact Or.inl h''
      · exact Or.inr ⟨c, List.mem_cons_self _ _, st.2, h''⟩
    · exact Or.inr ⟨cfg, List.mem_cons_of_mem _ hc, es, he⟩

/-- C9: with `avoid_self_links = true` on every rule, no self edge `(x, x)`
appears in the generated link list — including the reverse edges emitted
for bidirectional rules — for every sampler that picks targets among its
candidates. -/
theorem avoid_self_links_no_self_edges (sample : Sampler)
    (hsub : ∀ xs k, sample xs k ⊆ xs) (pages : List Page)
    (existing : List (ℕ × ℕ)) (cfgs : List MRuleConfig)
    (hall : ∀ cfg ∈ cfgs, cfg.avoid_self_links = true) (x : ℕ) :
    (x, x) ∉ generateLinks sample pages existing cfgs := by
  intro hmem
  unfold generateLinks at hmem
  rcases mem_generateLinks_exists sample pages cfgs ([], existing.toFinset)
      _ hmem with h | ⟨cfg, hc, es, he⟩
  · simp at h
  · exact applySingleRule_no_self sample hsub pages es cfg (hall cfg hc) x he

/-- Witness for `avoid_self_links_no_self_edges`: a bidirectional 2-links
rule over `srcPage :: mixPages` (all ids distinct) emits no self edge. -/
theorem avoid_self_links_witness :
    ({ links_per_page := 2, bidirectional := true } : MRuleConfig).avoid_self_links
        = true ∧
    (1, 1) ∉ generateLinks takeSample (srcPage :: mixPages) []
      [{ links_per_page := 2, bidirectional := true }] :=
  ⟨by decide,
   avoid_self_links_no_self_edges takeSample
     (fun xs k => List.take_subset k xs) (srcPage :: mixPages) []
     [{ links_per_page := 2, bidirectional := true }]
     (by decide) 1⟩

/-! ## Unknown selection methods fall back to the category strategy -/

lemma runSelector_unknown (sample : Sampler) (method : String)
    (h : method ∉ ["category", "semantic", "random", "pagerank_high", "pagerank_low"]) :
    runSelector sample method = categorySelect sample := by
  simp only [List.mem_cons, List.not_mem_nil, or_false, not_or] at h
  obtain ⟨h1, h2, h3, h4, h5⟩ := h
  unfold runSelector
  rw [if_neg h1, if_neg h2, if_neg h3, if_neg h4, if_neg h5]

/-- C8: a rule whose `selection_method` is none of the known strategy
names raises no error and produces exactly the links of the same
configuration with the default "category" strategy — the dispatch is
`selectors.get(selection_method, selectors['category'])`. -/
theorem unknown_selection_method_same_as_category (sample : Sampler)
    (pages : List Page) (es : Finset (ℕ × ℕ)) (cfg : MRuleConfig)
    (h : cfg.selection_method ∉
      ["category", "semantic", "random", "pagerank_high", "pagerank_low"]) :
    applySingleRule sample pages es cfg
      = applySingleRule sample pages es
          { cfg with selection_method := "category" } := by
  simp only [applySingleRule]
  rw [runSelector_unknown sample _ h]
  rfl

/-- Witness for `unknown_selection_method_same_as_category` with the
unknown method "mystery" over `mixPages`. -/
theorem unknown_selection_method_witness :
    ("mystery" : String) ∉
        ["category", "semantic", "random", "pagerank_high", "pagerank_low"] ∧
    applySingleRule takeSample mixPages ∅
        { selection_method := "mystery", links_per_page := 2 }
      = applySingleRule takeSample mixPages ∅
          { ({ selection_method := "mystery", links_per_page := 2 } : MRuleConfig)
              with selection_method := "category" } :=
  ⟨by decide,
   unknown_selection_method_same_as_category takeSample mixPages ∅
     { selection_method := "mystery", links_per_page := 2 } (by decide)⟩

/-! ## The 70/30 split of the relevance-mix selector -/

/-- C7 (amended): when both category buckets hold at least `m` candidates,
the relevance-mix selector takes `⌊0.7·m⌋` pages from the same-category
bucket and the full remainder `m − ⌊0.7·m⌋` — not `⌊0.3·m⌋` — from the
other-category bucket, returning exactly `m` pages. -/
theorem semanticSelect_bucket_quotas (sample : Sampler) (src : Page)
    (cands : List Page) (m : ℕ)
    (hlen : ∀ xs k, k ≤ xs.length → (sample xs k).length = k)
    (hsub : ∀ xs k, sample xs k ⊆ xs)
    (hsame : m ≤ (cands.filter fun pg => pg.category = src.category).length)
    (hother : m ≤ (cands.filter fun pg => ¬ pg.category = src.category).length) :
    ∃ s o, semanticSelect sample src cands m = s ++ o ∧
      s.length = sameCatQuota m ∧ o.length = m - sameCatQuota m ∧
      s ⊆ cands.filter (fun pg => pg.category = src.category) ∧
      o ⊆ cands.filter (fun pg => ¬ pg.category = src.category) ∧
      (semanticSelect sample src cands m).length = m := by
  have hq : sameCatQuota m ≤ m := by
    unfold sameCatQuota
    omega
  have h1 : min (cands.filter fun pg => pg.category = src.category).length
      (sameCatQuota m) = sameCatQuota m := min_eq_right (hq.trans hsame)
  have h2 : min (cands.filter fun pg => ¬ pg.category = src.category).length
      (m - sameCatQuota m) = m - sameCatQuota m :=
    min_eq_right ((Nat.sub_le _ _).trans hother)
  have hsplit : semanticSelect sample src cands m =
      (if 0 < sameCatQuota m then
        sample (cands.filter fun pg => pg.category = src.category) (sameCatQuota m)
      else []) ++
      (if 0 < m - sameCatQuota m then
        sample (cands.filter fun pg => ¬ pg.category = src.category)
          (m - sameCatQuota m)
      else []) := by
    simp only [semanticSelect, h1, h2]
  refine ⟨_, _, hsplit, ?_, ?_, ?_, ?_, ?_⟩
  · split_ifs with h
    · exact hlen _ _ (hq.trans hsame)
    · simp only [List.length_nil]
      omega
  · split_ifs with h
    · exact hlen _ _ ((Nat.sub_le _ _).trans hother)
    · simp only [List.length_nil]
      omega
  · split_ifs with h
    · exact hsub _ _
    · simp
  · split_ifs with h
    · exact hsub _ _
    · simp
  · rw [hsplit, List.length_append]
    split_ifs with ha hb hb
    · rw [hlen _ _ (hq.trans hsame), hlen _ _ ((Nat.sub_le _ _).trans hother)]
      omega
    · rw [hlen _ _ (hq.trans hsame)]
      simp only [List.length_nil]
      omega
    · rw [hlen _ _ ((Nat.sub_le _ _).trans hother)]
      simp only [List.length_nil]
      omega
    · simp only [List.length_nil]
      omega

/-- C7 counterexample: with `max_targets = 5` and five candidates in each
bucket, the selector returns 3 + 2 = 5 pages — the other-category bucket
receives `5 − ⌊0.7·5⌋ = 2` — exceeding the claimed maximum
`⌊0.7·5⌋ + ⌊0.3·5⌋ = 3 + 1 = 4`. -/
theorem semanticSelect_exceeds_claimed_bound :
    5 ≤ (mixPages.filter fun pg => pg.category = srcPage.category).length ∧
    5 ≤ (mixPages.filter fun pg => ¬ pg.category = srcPage.category).length ∧
    (semanticSelect takeSample srcPage mixPages 5).length = 5 ∧
    sameCatQuota 5 + 3 * 5 / 10 = 4 ∧
    ¬ (semanticSelect takeSample srcPage mixPages 5).length
        ≤ sameCatQuota 5 + 3 * 5 / 10 :=
  ⟨by decide, by decide, by decide, by decide, by decide⟩

/-- Witness for `semanticSelect_bucket_quotas` at `m = 5` over `mixPages`
with the take-first sampler. -/
theorem semanticSelect_bucket_quotas_witness :
    5 ≤ (mixPages.filter fun pg => pg.category = srcPage.category).length ∧
    (∃ s o, semanticSelect takeSample srcPage mixPages 5 = s ++ o ∧
      s.length = sameCatQuota 5 ∧ o.length = 5 - sameCatQuota 5 ∧
      s ⊆ mixPages.filter (fun pg => pg.category = srcPage.category) ∧
      o ⊆ mixPages.filter (fun pg => ¬ pg.category = srcPage.category) ∧
      (semanticSelect takeSample srcPage mixPages 5).length = 5) :=
  ⟨by decide,
   semanticSelect_bucket_quotas takeSample srcPage mixPages 5
     (fun xs k hk => by simp [takeSample, List.length_take, Nat.min_eq_left hk])
     (fun xs k => List.take_subset k xs)
     (by decide) (by decide)⟩

end PagerankSim
